import Mathlib

/-!
Verification of the tile-addressing, stitching, similarity-gating and
reporting core of the `ai-topographic-maps` repository.

The Python sources are shallowly embedded:
* planar coordinates (Python floats) become exact rationals `ℚ`;
* Python `int()` truncation toward zero becomes `pyInt`;
* the `RESOLUTIONS` dict (keys 0..28) becomes an indexed list lookup;
* fallible lookups become `Option`;
* the per-tile validation loop of `process_tile_with_validation` becomes a
  recursion over the list of per-attempt generation outcomes, with
  `Except.error` marking the Python `UnboundLocalError` path;
* filenames become `List Char` and the regex
  `(\d+)_(\d+)_map\.jpeg$` of `parse_tile_filename` is implemented
  character by character, with Python's semantics for both `\d` (any
  Unicode decimal digit, category Nd, decoded by `int()` to its value)
  and `$` (which also matches just before one trailing newline).
-/

/-- Tile edge length in pixels (`TILE_SIZE = 256` in both
`style_transfer_swissimage.py` and `stitch_tiles.py`). -/
def TILE_SIZE : ℚ := 256

/-- Planar origin X: `ORIGIN_X = BBOX_MIN_X = 2420000` (EPSG:2056). -/
def ORIGIN_X : ℚ := 2420000

/-- Planar origin Y: `ORIGIN_Y = BBOX_MAX_Y = 1350000` (EPSG:2056). -/
def ORIGIN_Y : ℚ := 1350000

/-- The values of the `RESOLUTIONS` dict of `style_transfer_swissimage.py`,
in key order: the dict's keys are exactly the contiguous range 0..28, so the
table is embedded as a list indexed by zoom level. -/
def RESOLUTION_LIST : List ℚ :=
  [4000, 3750, 3500, 3250, 3000, 2750, 2500, 2250,
   2000, 1750, 1500, 1250, 1000, 750, 650,
   500, 250, 100, 50, 20, 10, 5, 2.5,
   2, 1.5, 1, 0.5, 0.25, 0.1]

/-- `RESOLUTIONS[zoom]`: `some r` when `zoom` is a key of the dict,
`none` modelling the Python `KeyError`. -/
def RESOLUTIONS (zoom : ℕ) : Option ℚ :=
  RESOLUTION_LIST[zoom]?

/-- Python `int()` applied to a real quotient: truncation toward zero. -/
def pyInt (q : ℚ) : ℤ :=
  if q < 0 then ⌈q⌉ else ⌊q⌋

/-- Embedding of `swiss_to_tile(x, y, zoom)`
(`style_transfer_swissimage.py`, lines 142-148): looks up the resolution,
computes `tile_width_m = TILE_SIZE * resolution` and truncates
`(x - ORIGIN_X) / tile_width_m` and `(ORIGIN_Y - y) / tile_width_m`
toward zero with Python `int()`. -/
def swiss_to_tile (x y : ℚ) (zoom : ℕ) : Option (ℤ × ℤ) :=
  (RESOLUTIONS zoom).map fun resolution =>
    let tile_width_m := TILE_SIZE * resolution
    (pyInt ((x - ORIGIN_X) / tile_width_m), pyInt ((ORIGIN_Y - y) / tile_width_m))

/-- Modelled from the spec's words (for refinement comparison with
`swiss_to_tile` only): `column = floor((x - origin_x) / tile_span_m)`,
`row = floor((origin_y - y) / tile_span_m)` with
`tile_span_m = tile_pixel_size * resolution[zoom]`. -/
def swiss_to_tile_floor (x y : ℚ) (zoom : ℕ) : Option (ℤ × ℤ) :=
  (RESOLUTIONS zoom).map fun resolution =>
    let tile_span_m := TILE_SIZE * resolution
    (⌊(x - ORIGIN_X) / tile_span_m⌋, ⌊(ORIGIN_Y - y) / tile_span_m⌋)

/-- A bounding box in the planar coordinate system, as the dict
`{min_x, max_x, min_y, max_y}` built by `parse_kml_bbox`. -/
structure BBox where
  min_x : ℚ
  max_x : ℚ
  min_y : ℚ
  max_y : ℚ
deriving DecidableEq, Repr

/-- Python `range(a, b + 1)` over integers: the list `a, a+1, ..., b`
(empty when `b < a`). -/
def intRange (a b : ℤ) : List ℤ :=
  (List.range (b + 1 - a).toNat).map fun i : ℕ => a + (i : ℤ)

/-- Embedding of `get_tiles_in_bbox(bbox, zoom)`
(`style_transfer_swissimage.py`, lines 150-163): converts the
`(min_x, min_y)` corner to `(min_tile_col, max_tile_row)` and the
`(max_x, max_y)` corner to `(max_tile_col, min_tile_row)`, then returns the
column-major Cartesian product of the two inclusive ranges.  The function
body raises no exception; `none` only models the `KeyError` of an unknown
zoom level inside `swiss_to_tile`. -/
def get_tiles_in_bbox (bbox : BBox) (zoom : ℕ) : Option (List (ℤ × ℤ)) :=
  match swiss_to_tile bbox.min_x bbox.min_y zoom,
        swiss_to_tile bbox.max_x bbox.max_y zoom with
  | some (min_tile_col, max_tile_row), some (max_tile_col, min_tile_row) =>
      some ((intRange min_tile_col max_tile_col).flatMap fun tile_col =>
        (intRange min_tile_row max_tile_row).map fun tile_row =>
          (tile_col, tile_row))
  | _, _ => none

/-- Evaluation helper: `pyInt q = z` for nonnegative `q`, from floor bounds. -/
theorem pyInt_eq_of_nonneg {q : ℚ} {z : ℤ} (h0 : 0 ≤ q) (h1 : (z : ℚ) ≤ q)
    (h2 : q < z + 1) : pyInt q = z := by
  rw [pyInt, if_neg (not_lt.mpr h0), Int.floor_eq_iff]
  exact ⟨h1, by exact_mod_cast h2⟩

/-- Evaluation helper: `pyInt q = z` for negative `q`, from ceiling bounds. -/
theorem pyInt_eq_of_neg {q : ℚ} {z : ℤ} (h0 : q < 0) (h1 : (z : ℚ) - 1 < q)
    (h2 : q ≤ z) : pyInt q = z := by
  rw [pyInt, if_pos h0, Int.ceil_eq_iff]
  exact ⟨by exact_mod_cast h1, h2⟩

/-- Evaluation helper for `swiss_to_tile` from the resolution lookup and the
two truncations. -/
theorem swiss_to_tile_eq {x y : ℚ} {zoom : ℕ} {res : ℚ} {c r : ℤ}
    (h : RESOLUTIONS zoom = some res)
    (hc : pyInt ((x - ORIGIN_X) / (TILE_SIZE * res)) = c)
    (hr : pyInt ((ORIGIN_Y - y) / (TILE_SIZE * res)) = r) :
    swiss_to_tile x y zoom = some (c, r) := by
  subst hc
  subst hr
  simp [swiss_to_tile, h]

/-- The resolution at zoom level 26 (the pipeline's `ZOOM_LEVEL`) is 0.5
meters per pixel. -/
theorem RESOLUTIONS_26 : RESOLUTIONS 26 = some 0.5 := rfl

/-- Evaluation helper for `get_tiles_in_bbox` from the two corner
conversions. -/
theorem get_tiles_in_bbox_eq {x1 x2 y1 y2 : ℚ} {zoom : ℕ}
    {min_tile_col max_tile_row max_tile_col min_tile_row : ℤ}
    (h1 : swiss_to_tile x1 y1 zoom = some (min_tile_col, max_tile_row))
    (h2 : swiss_to_tile x2 y2 zoom = some (max_tile_col, min_tile_row)) :
    get_tiles_in_bbox ⟨x1, x2, y1, y2⟩ zoom =
      some ((intRange min_tile_col max_tile_col).flatMap fun tile_col =>
        (intRange min_tile_row max_tile_row).map fun tile_row =>
          (tile_col, tile_row)) := by
  rw [get_tiles_in_bbox]
  rw [show (⟨x1, x2, y1, y2⟩ : BBox).min_x = x1 from rfl,
      show (⟨x1, x2, y1, y2⟩ : BBox).min_y = y1 from rfl,
      show (⟨x1, x2, y1, y2⟩ : BBox).max_x = x2 from rfl,
      show (⟨x1, x2, y1, y2⟩ : BBox).max_y = y2 from rfl, h1, h2]

/-- Evaluation helper for `swiss_to_tile_floor`, analogous to
`swiss_to_tile_eq`. -/
theorem swiss_to_tile_floor_eq {x y : ℚ} {zoom : ℕ} {res : ℚ} {c r : ℤ}
    (h : RESOLUTIONS zoom = some res)
    (hc : ⌊(x - ORIGIN_X) / (TILE_SIZE * res)⌋ = c)
    (hr : ⌊(ORIGIN_Y - y) / (TILE_SIZE * res)⌋ = r) :
    swiss_to_tile_floor x y zoom = some (c, r) := by
  subst hc
  subst hr
  simp [swiss_to_tile_floor, h]

/-- Evaluation helper for floors of rational literals. -/
theorem floor_eq_of_bounds {q : ℚ} {z : ℤ} (h1 : (z : ℚ) ≤ q)
    (h2 : q < z + 1) : ⌊q⌋ = z := by
  rw [Int.floor_eq_iff]
  exact ⟨h1, by exact_mod_cast h2⟩

/-- Every entry of the resolution table is strictly positive. -/
theorem RESOLUTION_LIST_pos : ∀ r ∈ RESOLUTION_LIST, 0 < r := by
  intro r hr
  fin_cases hr <;> norm_num

/-- The resolution table is non-increasing entry by entry. -/
theorem RESOLUTION_LIST_pairwise : RESOLUTION_LIST.Pairwise (· ≥ ·) := by
  rw [← List.chain'_iff_pairwise, RESOLUTION_LIST]
  norm_num [List.chain'_cons]

/-- A successful resolution lookup yields a strictly positive value. -/
theorem RESOLUTIONS_pos {zoom : ℕ} {r : ℚ} (h : RESOLUTIONS zoom = some r) :
    0 < r := by
  rw [RESOLUTIONS] at h
  obtain ⟨hb, he⟩ := List.getElem?_eq_some_iff.mp h
  subst he
  exact RESOLUTION_LIST_pos _ (RESOLUTION_LIST.getElem_mem hb)

/-- Claim C9: for every pair of zoom levels z1 < z2 both present in the
RESOLUTIONS table, resolution[z1] ≥ resolution[z2], and every resolution
value is strictly positive — the table is monotonically non-increasing in
zoom. -/
theorem C9_resolutions_monotone_pos :
    (∀ z1 z2 : ℕ, ∀ r1 r2 : ℚ, z1 < z2 → RESOLUTIONS z1 = some r1 →
      RESOLUTIONS z2 = some r2 → r2 ≤ r1) ∧
    (∀ z : ℕ, ∀ r : ℚ, RESOLUTIONS z = some r → 0 < r) := by
  constructor
  · intro z1 z2 r1 r2 hlt h1 h2
    rw [RESOLUTIONS] at h1 h2
    obtain ⟨hb1, he1⟩ := List.getElem?_eq_some_iff.mp h1
    obtain ⟨hb2, he2⟩ := List.getElem?_eq_some_iff.mp h2
    subst he1
    subst he2
    exact List.pairwise_iff_getElem.mp RESOLUTION_LIST_pairwise z1 z2 hb1 hb2 hlt
  · intro z r h
    exact RESOLUTIONS_pos h

/-- Witness for C9 at the concrete zoom levels 26 < 27. -/
theorem C9_resolutions_monotone_pos_witness : (0.25 : ℚ) ≤ 0.5 ∧ (0 : ℚ) < 0.5 :=
  ⟨C9_resolutions_monotone_pos.1 26 27 0.5 0.25 (by norm_num) rfl rfl,
   C9_resolutions_monotone_pos.2 26 0.5 rfl⟩

/-- Claim C1 counterexample: at (x, y) = (2419936, 1350000) — 64 meters west
of the origin — and zoom 26, the code truncates toward zero and returns
tile (0, 0), while the claimed floor formula gives column -1; the planar
rectangle of tile (0, 0) starts at ORIGIN_X and hence does not contain x. -/
theorem C1_counterexample :
    swiss_to_tile 2419936 1350000 26 = some (0, 0) ∧
    swiss_to_tile_floor 2419936 1350000 26 = some (-1, 0) ∧
    ¬(ORIGIN_X + (0 : ℚ) * (TILE_SIZE * 0.5) ≤ (2419936 : ℚ)) := by
  refine ⟨?_, ?_, ?_⟩
  · refine swiss_to_tile_eq RESOLUTIONS_26 (pyInt_eq_of_neg ?_ ?_ ?_)
      (pyInt_eq_of_nonneg ?_ ?_ ?_) <;> norm_num [ORIGIN_X, ORIGIN_Y, TILE_SIZE]
  · refine swiss_to_tile_floor_eq RESOLUTIONS_26 (floor_eq_of_bounds ?_ ?_)
      (floor_eq_of_bounds ?_ ?_) <;> norm_num [ORIGIN_X, ORIGIN_Y, TILE_SIZE]
  · norm_num [ORIGIN_X, TILE_SIZE]

/-- Claim C1 (amended): for every coordinate pair with x ≥ ORIGIN_X and
y ≤ ORIGIN_Y and every zoom level in the resolution table, `swiss_to_tile`
agrees with the floor formula
column = floor((x - ORIGIN_X) / tile_span_m),
row = floor((ORIGIN_Y - y) / tile_span_m), and the half-open planar
rectangle of the returned tile contains (x, y); for x < ORIGIN_X or
y > ORIGIN_Y the `int()` truncation departs from floor
(see the counterexample). -/
theorem C1_amended_swiss_to_tile_floor_containment
    (x y : ℚ) (zoom : ℕ) (res : ℚ) (hres : RESOLUTIONS zoom = some res)
    (hx : ORIGIN_X ≤ x) (hy : y ≤ ORIGIN_Y) :
    swiss_to_tile x y zoom = swiss_to_tile_floor x y zoom ∧
    ∃ c r : ℤ, swiss_to_tile x y zoom = some (c, r) ∧
      ORIGIN_X + (c : ℚ) * (TILE_SIZE * res) ≤ x ∧
      x < ORIGIN_X + ((c : ℚ) + 1) * (TILE_SIZE * res) ∧
      ORIGIN_Y - ((r : ℚ) + 1) * (TILE_SIZE * res) < y ∧
      y ≤ ORIGIN_Y - (r : ℚ) * (TILE_SIZE * res) := by
  have hspan : 0 < TILE_SIZE * res := by
    have h1 : (0 : ℚ) < TILE_SIZE := by norm_num [TILE_SIZE]
    exact mul_pos h1 (RESOLUTIONS_pos hres)
  have hqx : 0 ≤ (x - ORIGIN_X) / (TILE_SIZE * res) :=
    div_nonneg (by linarith) hspan.le
  have hqy : 0 ≤ (ORIGIN_Y - y) / (TILE_SIZE * res) :=
    div_nonneg (by linarith) hspan.le
  have hpx : pyInt ((x - ORIGIN_X) / (TILE_SIZE * res)) =
      ⌊(x - ORIGIN_X) / (TILE_SIZE * res)⌋ := by
    rw [pyInt, if_neg (not_lt.mpr hqx)]
  have hpy : pyInt ((ORIGIN_Y - y) / (TILE_SIZE * res)) =
      ⌊(ORIGIN_Y - y) / (TILE_SIZE * res)⌋ := by
    rw [pyInt, if_neg (not_lt.mpr hqy)]
  refine ⟨?_, ⌊(x - ORIGIN_X) / (TILE_SIZE * res)⌋,
    ⌊(ORIGIN_Y - y) / (TILE_SIZE * res)⌋, swiss_to_tile_eq hres hpx hpy,
    ?_, ?_, ?_, ?_⟩
  · simp [swiss_to_tile, swiss_to_tile_floor, hres, hpx, hpy]
  · have h1 : (⌊(x - ORIGIN_X) / (TILE_SIZE * res)⌋ : ℚ) * (TILE_SIZE * res) ≤
        x - ORIGIN_X :=
      (le_div_iff₀ hspan).mp (Int.floor_le _)
    linarith
  · have h1 : x - ORIGIN_X <
        ((⌊(x - ORIGIN_X) / (TILE_SIZE * res)⌋ : ℚ) + 1) * (TILE_SIZE * res) :=
      (div_lt_iff₀ hspan).mp (Int.lt_floor_add_one _)
    linarith
  · have h1 : ORIGIN_Y - y <
        ((⌊(ORIGIN_Y - y) / (TILE_SIZE * res)⌋ : ℚ) + 1) * (TILE_SIZE * res) :=
      (div_lt_iff₀ hspan).mp (Int.lt_floor_add_one _)
    linarith
  · have h1 : (⌊(ORIGIN_Y - y) / (TILE_SIZE * res)⌋ : ℚ) * (TILE_SIZE * res) ≤
        ORIGIN_Y - y :=
      (le_div_iff₀ hspan).mp (Int.floor_le _)
    linarith

/-- Witness for the amended C1 at (x, y) = (2420100, 1349900), zoom 26. -/
theorem C1_amended_witness :
    swiss_to_tile 2420100 1349900 26 = swiss_to_tile_floor 2420100 1349900 26 ∧
    ∃ c r : ℤ, swiss_to_tile 2420100 1349900 26 = some (c, r) ∧
      ORIGIN_X + (c : ℚ) * (TILE_SIZE * 0.5) ≤ 2420100 ∧
      (2420100 : ℚ) < ORIGIN_X + ((c : ℚ) + 1) * (TILE_SIZE * 0.5) ∧
      ORIGIN_Y - ((r : ℚ) + 1) * (TILE_SIZE * 0.5) < 1349900 ∧
      (1349900 : ℚ) ≤ ORIGIN_Y - (r : ℚ) * (TILE_SIZE * 0.5) :=
  C1_amended_swiss_to_tile_floor_containment 2420100 1349900 26 0.5 rfl
    (by norm_num [ORIGIN_X]) (by norm_num [ORIGIN_Y])

/-- `pyInt` is the identity on integer casts. -/
theorem pyInt_intCast (c : ℤ) : pyInt (c : ℚ) = c := by
  rw [pyInt]
  split
  · exact Int.ceil_intCast c
  · exact Int.floor_intCast c

/-- The inclusive integer range from `a` to `a + 1` is the two-element
list `[a, a + 1]`. -/
theorem intRange_self_succ (a : ℤ) : intRange a (a + 1) = [a, a + 1] := by
  rw [intRange, show (a + 1 + 1 - a).toNat = 2 by omega,
      show List.range 2 = [0, 1] from rfl]
  simp

/-- Claim C2 counterexample: the bounding box that is exactly the planar
extent of tile (0, 0) at zoom 26 (span 128 m) makes `get_tiles_in_bbox`
return the four tiles (0,0), (0,1), (1,0), (1,1) — not the single
tile (0, 0) — because the max corner lies exactly on the shared boundary
and is assigned to the next column/row. -/
theorem C2_counterexample :
    get_tiles_in_bbox ⟨2420000, 2420128, 1349872, 1350000⟩ 26 =
      some [(0, 0), (0, 1), (1, 0), (1, 1)] ∧
    ([(0, 0), (0, 1), (1, 0), (1, 1)] : List (ℤ × ℤ)) ≠ [(0, 0)] := by
  constructor
  · have h1 : swiss_to_tile 2420000 1349872 26 = some (0, 1) := by
      refine swiss_to_tile_eq RESOLUTIONS_26 ?_ ?_ <;>
        refine pyInt_eq_of_nonneg ?_ ?_ ?_ <;> norm_num [ORIGIN_X, ORIGIN_Y, TILE_SIZE]
    have h2 : swiss_to_tile 2420128 1350000 26 = some (1, 0) := by
      refine swiss_to_tile_eq RESOLUTIONS_26 ?_ ?_ <;>
        refine pyInt_eq_of_nonneg ?_ ?_ ?_ <;> norm_num [ORIGIN_X, ORIGIN_Y, TILE_SIZE]
    rw [get_tiles_in_bbox_eq h1 h2]
    decide
  · decide

/-- Claim C2 (amended): for every tile index (c, r) and every zoom level in
the resolution table, `get_tiles_in_bbox` on the bounding box that is exactly
that tile's planar extent returns the 2×2 block of tiles
(c,r), (c,r+1), (c+1,r), (c+1,r+1): the max-x/max-y corner lies on the
boundary shared with the next column and row and, under the half-open
tiling, belongs to them. -/
theorem C2_amended_exact_tile_bbox (c r : ℤ) (zoom : ℕ) (res : ℚ)
    (hres : RESOLUTIONS zoom = some res) :
    get_tiles_in_bbox
      ⟨ORIGIN_X + (c : ℚ) * (TILE_SIZE * res),
       ORIGIN_X + ((c : ℚ) + 1) * (TILE_SIZE * res),
       ORIGIN_Y - ((r : ℚ) + 1) * (TILE_SIZE * res),
       ORIGIN_Y - (r : ℚ) * (TILE_SIZE * res)⟩ zoom =
      some [(c, r), (c, r + 1), (c + 1, r), (c + 1, r + 1)] := by
  have hspan : (0 : ℚ) < TILE_SIZE * res :=
    mul_pos (by norm_num [TILE_SIZE]) (RESOLUTIONS_pos hres)
  have hne : TILE_SIZE * res ≠ 0 := ne_of_gt hspan
  have h1 : swiss_to_tile (ORIGIN_X + (c : ℚ) * (TILE_SIZE * res))
      (ORIGIN_Y - ((r : ℚ) + 1) * (TILE_SIZE * res)) zoom = some (c, r + 1) := by
    refine swiss_to_tile_eq hres ?_ ?_
    · have hq : (ORIGIN_X + (c : ℚ) * (TILE_SIZE * res) - ORIGIN_X) /
          (TILE_SIZE * res) = ((c : ℤ) : ℚ) := by
        field_simp
      rw [hq, pyInt_intCast]
    · have hq : (ORIGIN_Y - (ORIGIN_Y - ((r : ℚ) + 1) * (TILE_SIZE * res))) /
          (TILE_SIZE * res) = ((r + 1 : ℤ) : ℚ) := by
        push_cast
        field_simp
      rw [hq, pyInt_intCast]
  have h2 : swiss_to_tile (ORIGIN_X + ((c : ℚ) + 1) * (TILE_SIZE * res))
      (ORIGIN_Y - (r : ℚ) * (TILE_SIZE * res)) zoom = some (c + 1, r) := by
    refine swiss_to_tile_eq hres ?_ ?_
    · have hq : (ORIGIN_X + ((c : ℚ) + 1) * (TILE_SIZE * res) - ORIGIN_X) /
          (TILE_SIZE * res) = ((c + 1 : ℤ) : ℚ) := by
        push_cast
        field_simp
      rw [hq, pyInt_intCast]
    · have hq : (ORIGIN_Y - (ORIGIN_Y - (r : ℚ) * (TILE_SIZE * res))) /
          (TILE_SIZE * res) = ((r : ℤ) : ℚ) := by
        field_simp
      rw [hq, pyInt_intCast]
  rw [get_tiles_in_bbox_eq h1 h2, intRange_self_succ, intRange_self_succ]
  rfl

/-- Witness for the amended C2 at tile (0, 0), zoom 26. -/
theorem C2_amended_witness :
    get_tiles_in_bbox
      ⟨ORIGIN_X + ((0 : ℤ) : ℚ) * (TILE_SIZE * 0.5),
       ORIGIN_X + (((0 : ℤ) : ℚ) + 1) * (TILE_SIZE * 0.5),
       ORIGIN_Y - (((0 : ℤ) : ℚ) + 1) * (TILE_SIZE * 0.5),
       ORIGIN_Y - ((0 : ℤ) : ℚ) * (TILE_SIZE * 0.5)⟩ 26 =
      some [(0, 0), (0, 1), (1, 0), (1, 1)] :=
  C2_amended_exact_tile_bbox 0 0 26 0.5 rfl

/-- Claim C4 counterexample: the inverted bounding box with
min_x = 2420256 > max_x = 2420000 produces a silently empty tile list
(`some []`) at zoom 26; `get_tiles_in_bbox` raises nothing — no
`ConfigurationError` (or any other error class) exists anywhere in the
repository's code. -/
theorem C4_counterexample :
    get_tiles_in_bbox ⟨2420256, 2420000, 1349872, 1350000⟩ 26 = some [] := by
  have h1 : swiss_to_tile 2420256 1349872 26 = some (2, 1) := by
    refine swiss_to_tile_eq RESOLUTIONS_26 ?_ ?_ <;>
      refine pyInt_eq_of_nonneg ?_ ?_ ?_ <;> norm_num [ORIGIN_X, ORIGIN_Y, TILE_SIZE]
  have h2 : swiss_to_tile 2420000 1350000 26 = some (0, 0) := by
    refine swiss_to_tile_eq RESOLUTIONS_26 ?_ ?_ <;>
      refine pyInt_eq_of_nonneg ?_ ?_ ?_ <;> norm_num [ORIGIN_X, ORIGIN_Y, TILE_SIZE]
  rw [get_tiles_in_bbox_eq h1 h2]
  decide

/-- Claim C4 (amended): an inverted or degenerate bounding box is not
detected: `get_tiles_in_bbox` raises no error and, whenever the derived
corner tile ranges are inverted (derived max column below derived min
column, or derived min row above derived max row), it silently returns the
empty tile list. -/
theorem C4_amended_inverted_bbox_empty (bbox : BBox) (zoom : ℕ)
    (c1 r1 c2 r2 : ℤ)
    (h1 : swiss_to_tile bbox.min_x bbox.min_y zoom = some (c1, r1))
    (h2 : swiss_to_tile bbox.max_x bbox.max_y zoom = some (c2, r2))
    (hinv : c2 < c1 ∨ r1 < r2) :
    get_tiles_in_bbox bbox zoom = some [] := by
  rw [get_tiles_in_bbox, h1, h2]
  dsimp only
  rcases hinv with hc | hr
  · rw [show intRange c1 c2 = [] by
      rw [intRange, show (c2 + 1 - c1).toNat = 0 by omega]
      rfl]
    rfl
  · rw [show intRange r2 r1 = [] by
      rw [intRange, show (r1 + 1 - r2).toNat = 0 by omega]
      rfl]
    simp

/-- Witness for the amended C4: a bounding box with inverted y-axis
(min_y = 1350000 > max_y = 1349872) yields the silently empty list. -/
theorem C4_amended_witness :
    get_tiles_in_bbox ⟨2420000, 2420128, 1350000, 1349872⟩ 26 = some [] := by
  have h1 : swiss_to_tile 2420000 1350000 26 = some (0, 0) := by
    refine swiss_to_tile_eq RESOLUTIONS_26 ?_ ?_ <;>
      refine pyInt_eq_of_nonneg ?_ ?_ ?_ <;> norm_num [ORIGIN_X, ORIGIN_Y, TILE_SIZE]
  have h2 : swiss_to_tile 2420128 1349872 26 = some (1, 1) := by
    refine swiss_to_tile_eq RESOLUTIONS_26 ?_ ?_ <;>
      refine pyInt_eq_of_nonneg ?_ ?_ ?_ <;> norm_num [ORIGIN_X, ORIGIN_Y, TILE_SIZE]
  exact C4_amended_inverted_bbox_empty ⟨2420000, 2420128, 1350000, 1349872⟩ 26
    0 0 1 1 h1 h2 (Or.inr (by norm_num))

/-- The attempt loop of `process_tile_with_validation`
(`style_transfer_swissimage.py`, lines 216-248).  The first argument list
holds one entry per remaining attempt: `none` when `apply_style_transfer`
returned `None` for that attempt (the loop prints and `continue`s), and
`some s` when a styled image was produced and `calculate_ssim_score`
returned `s`.  The second argument is the current value of the Python local
`ssim_score` (`none` before its first assignment).  After the loop the code
executes `return False, ssim_score`; when `ssim_score` was never assigned
this raises `UnboundLocalError`, modelled as `Except.error ()`. -/
def process_tile_go (threshold : ℚ) :
    List (Option ℚ) → Option ℚ → Except Unit (Bool × ℚ)
  | [], some s => Except.ok (false, s)
  | [], none => Except.error ()
  | none :: rest, last => process_tile_go threshold rest last
  | some s :: rest, _ =>
      if s < threshold then Except.ok (true, s)
      else process_tile_go threshold rest (some s)

/-- Embedding of `process_tile_with_validation(...)`
(`style_transfer_swissimage.py`, lines 212-248): runs the attempt loop with
the local `ssim_score` initially unbound. -/
def process_tile_with_validation (threshold : ℚ)
    (attempts : List (Option ℚ)) : Except Unit (Bool × ℚ) :=
  process_tile_go threshold attempts none

/-- Claim C3 (code bug): with the defaults threshold = 0.35 and
max_attempts = 3, when `apply_style_transfer` returns `None` on every one of
the three attempts, `process_tile_with_validation` does not return the
failure outcome `(False, last score)` — it raises `UnboundLocalError` at
`return False, ssim_score`, because `ssim_score` is assigned only on
attempts that produced a styled image. -/
theorem C3_code_bug_all_attempts_none :
    process_tile_with_validation 0.35 [none, none, none] = Except.error () :=
  rfl

/-- The shape-level dataflow shared verbatim by `calculate_ssim`
(`ssim_compare.py`, lines 45-81) and `calculate_ssim_score`
(`style_transfer_swissimage.py`, lines 51-90): grayscale conversion
preserves each image's `(height, width)` shape; when the two grayscale
shapes differ, `target_shape` takes the per-axis maximum and each image
whose shape differs from `target_shape` is resized (LANCZOS) to it; the
windowed SSIM then runs on the two resulting grids.  The function returns
the pair of shapes on which SSIM is computed. -/
def calculate_ssim_shapes (s1 s2 : ℕ × ℕ) : (ℕ × ℕ) × (ℕ × ℕ) :=
  if s1 ≠ s2 then
    let target_shape : ℕ × ℕ := (max s1.1 s2.1, max s1.2 s2.2)
    ((if s1 ≠ target_shape then target_shape else s1),
     (if s2 ≠ target_shape then target_shape else s2))
  else (s1, s2)

/-- Claim C5: the similarity scorer compares the two images at the per-axis
maximum of their two grayscale shapes, so neither image is ever
downsampled on either axis; comparing a 100×100 image with a 50×50 image
performs the comparison at 100×100. -/
theorem C5_ssim_resize_no_downsample (s1 s2 : ℕ × ℕ) :
    calculate_ssim_shapes s1 s2 =
      ((max s1.1 s2.1, max s1.2 s2.2), (max s1.1 s2.1, max s1.2 s2.2)) ∧
    (s1.1 ≤ max s1.1 s2.1 ∧ s1.2 ≤ max s1.2 s2.2 ∧
     s2.1 ≤ max s1.1 s2.1 ∧ s2.2 ≤ max s1.2 s2.2) ∧
    calculate_ssim_shapes (100, 100) (50, 50) = ((100, 100), (100, 100)) := by
  refine ⟨?_, ⟨le_max_left _ _, le_max_left _ _, le_max_right _ _,
    le_max_right _ _⟩, by decide⟩
  simp only [calculate_ssim_shapes]
  split_ifs with h h1 h2 h3 <;> simp_all [Prod.ext_iff]

/-- The per-pair success/failure classification and summary construction of
`analyze_directory` (`ssim_compare.py`, lines 200-238), as a function of
the SSIM scores of the successfully analyzed pairs (in order) and the
threshold.  A pair counts as a successful transformation iff its score is
strictly below the threshold; `success_rate` and `average_ssim` fall back
to 0 on an empty result list (`... if results else 0`). -/
structure Summary where
  total_tiles : ℕ
  successful_transformations : ℕ
  failed_transformations : ℕ
  success_rate : ℚ
  ssim_threshold : ℚ
  average_ssim : ℚ
deriving DecidableEq, Repr

/-- Embedding of the summary dict built at `ssim_compare.py`, lines
230-238, with `results` abstracted to the list of per-pair SSIM scores. -/
def analyze_directory_summary (scores : List ℚ) (ssim_threshold : ℚ) :
    Summary :=
  let success_count := (scores.filter fun s => s < ssim_threshold).length
  let failed_count := (scores.filter fun s => ¬(s < ssim_threshold)).length
  ⟨scores.length, success_count, failed_count,
   if scores ≠ [] then (success_count : ℚ) / (scores.length : ℚ) else 0,
   ssim_threshold,
   if scores ≠ [] then scores.sum / (scores.length : ℚ) else 0⟩

/-- Splitting a list by a predicate preserves its length. -/
theorem length_filter_split {α : Type} (p : α → Bool) (l : List α) :
    (l.filter p).length + (l.filter fun a => !(p a)).length = l.length := by
  induction l with
  | nil => rfl
  | cons a t ih =>
    by_cases h : p a <;> simp [List.filter_cons, h, ← ih] <;> omega

/-- Claim C8: on zero successfully-scored pairs the summary reports
success_rate = 0 and average score = 0 (defined values, not an error), with
all counts 0; and for every input the counts are reported consistently:
total equals the number of scored pairs and successful + failed = total. -/
theorem C8_zero_pairs_summary (thr : ℚ) :
    (analyze_directory_summary [] thr).success_rate = 0 ∧
    (analyze_directory_summary [] thr).average_ssim = 0 ∧
    (analyze_directory_summary [] thr).total_tiles = 0 ∧
    (analyze_directory_summary [] thr).successful_transformations = 0 ∧
    (analyze_directory_summary [] thr).failed_transformations = 0 ∧
    ∀ scores : List ℚ,
      (analyze_directory_summary scores thr).total_tiles = scores.length ∧
      (analyze_directory_summary scores thr).successful_transformations +
        (analyze_directory_summary scores thr).failed_transformations =
          (analyze_directory_summary scores thr).total_tiles := by
  refine ⟨rfl, rfl, rfl, rfl, rfl, ?_⟩
  intro scores
  refine ⟨rfl, ?_⟩
  simp only [analyze_directory_summary, decide_not]
  exact length_filter_split _ _

/-- Membership in the inclusive integer range. -/
theorem mem_intRange {a b x : ℤ} : x ∈ intRange a b ↔ a ≤ x ∧ x ≤ b := by
  constructor
  · intro hx
    rw [intRange] at hx
    obtain ⟨i, hi, rfl⟩ := List.mem_map.mp hx
    have hlt := List.mem_range.mp hi
    omega
  · intro hx
    rw [intRange]
    refine List.mem_map.mpr ⟨(x - a).toNat, List.mem_range.mpr ?_, ?_⟩ <;> omega

/-- Membership test of the Python dict `tiles` keyed by `(col, row)`
(`(col, row) in tiles`), combined with whether `Image.open` succeeds on the
stored file: `none` when the key is absent, `some b` when present with
readability `b`. -/
def tileLookup (tiles : List ((ℤ × ℤ) × Bool)) (key : ℤ × ℤ) : Option Bool :=
  (tiles.find? fun t => t.1 = key).map fun t => t.2

/-- The observable layout output of `stitch_tiles`: canvas dimensions, the
list of pastes (tile key and its pixel offset, in loop order), and the
`missing_tiles` gap list (in loop order). -/
structure StitchResult where
  width : ℤ
  height : ℤ
  pasted : List ((ℤ × ℤ) × (ℤ × ℤ))
  missing : List (ℤ × ℤ)
deriving DecidableEq, Repr

/-- Embedding of `stitch_tiles(tiles, min_col, max_col, min_row, max_row,
output_file)` (`stitch_tiles.py`, lines 67-122): the canvas is
`(max_col - min_col + 1) * tile_width` by `(max_row - min_row + 1) *
tile_height`; the double loop walks every cell of the inclusive rectangle
in column-major order; a present, readable tile is pasted at
`((col - min_col) * tile_width, (row - min_row) * tile_height)`; an absent
cell, or a present tile whose image fails to open, is appended to
`missing_tiles`; assembly never aborts. -/
def stitch_tiles (tiles : List ((ℤ × ℤ) × Bool))
    (min_col max_col min_row max_row tile_width tile_height : ℤ) :
    StitchResult :=
  let cells := (intRange min_col max_col).flatMap fun col =>
    (intRange min_row max_row).map fun row => (col, row)
  ⟨(max_col - min_col + 1) * tile_width,
   (max_row - min_row + 1) * tile_height,
   cells.filterMap fun cr =>
     match tileLookup tiles cr with
     | some true =>
         some (cr, ((cr.1 - min_col) * tile_width, (cr.2 - min_row) * tile_height))
     | _ => none,
   cells.filter fun cr =>
     match tileLookup tiles cr with
     | some true => false
     | _ => true⟩

/-- Claim C6: for every tile set and occupied extents, the stitcher
allocates a canvas of `(max_col - min_col + 1) * tile_width` by
`(max_row - min_row + 1) * tile_height`, pastes each present readable tile
(c, r) of the rectangle at pixel offset
`((c - min_col) * tile_width, (r - min_row) * tile_height)`, and records
every cell of the inclusive rectangle without a usable tile as a gap,
without aborting; on the tile set {(0,0), (1,0), (0,1)} with 256×256 tiles
the canvas is 512×512 with exactly one gap at (1,1). -/
theorem C6_stitch_layout (tiles : List ((ℤ × ℤ) × Bool))
    (min_col max_col min_row max_row tile_width tile_height : ℤ) :
    ((stitch_tiles tiles min_col max_col min_row max_row tile_width
        tile_height).width = (max_col - min_col + 1) * tile_width ∧
     (stitch_tiles tiles min_col max_col min_row max_row tile_width
        tile_height).height = (max_row - min_row + 1) * tile_height) ∧
    (∀ c r : ℤ, min_col ≤ c → c ≤ max_col → min_row ≤ r → r ≤ max_row →
      tileLookup tiles (c, r) = some true →
      ((c, r), ((c - min_col) * tile_width, (r - min_row) * tile_height)) ∈
        (stitch_tiles tiles min_col max_col min_row max_row tile_width
          tile_height).pasted) ∧
    (∀ c r : ℤ, min_col ≤ c → c ≤ max_col → min_row ≤ r → r ≤ max_row →
      tileLookup tiles (c, r) ≠ some true →
      (c, r) ∈ (stitch_tiles tiles min_col max_col min_row max_row tile_width
        tile_height).missing) ∧
    stitch_tiles [((0, 0), true), ((1, 0), true), ((0, 1), true)]
        0 1 0 1 256 256 =
      ⟨512, 512, [((0, 0), (0, 0)), ((0, 1), (0, 256)), ((1, 0), (256, 0))],
       [(1, 1)]⟩ := by
  refine ⟨⟨rfl, rfl⟩, ?_, ?_, by decide⟩
  · intro c r hc1 hc2 hr1 hr2 hlk
    refine List.mem_filterMap.mpr ⟨(c, r), ?_, ?_⟩
    · exact List.mem_flatMap.mpr ⟨c, mem_intRange.mpr ⟨hc1, hc2⟩,
        List.mem_map.mpr ⟨r, mem_intRange.mpr ⟨hr1, hr2⟩, rfl⟩⟩
    · dsimp only
      rw [hlk]
  · intro c r hc1 hc2 hr1 hr2 hlk
    refine List.mem_filter.mpr ⟨?_, ?_⟩
    · exact List.mem_flatMap.mpr ⟨c, mem_intRange.mpr ⟨hc1, hc2⟩,
        List.mem_map.mpr ⟨r, mem_intRange.mpr ⟨hr1, hr2⟩, rfl⟩⟩
    · dsimp only
      rcases h : tileLookup tiles (c, r) with _ | b
      · rfl
      · cases b
        · rfl
        · exact absurd h hlk

/-- Witness for C6: in the concrete three-tile store, tile (0, 0) is pasted
at offset (0, 0). -/
theorem C6_stitch_layout_witness :
    (((0, 0), ((0 : ℤ) - 0) * 256, ((0 : ℤ) - 0) * 256) :
        (ℤ × ℤ) × ℤ × ℤ) ∈
      (stitch_tiles [((0, 0), true), ((1, 0), true), ((0, 1), true)]
        0 1 0 1 256 256).pasted :=
  (C6_stitch_layout [((0, 0), true), ((1, 0), true), ((0, 1), true)]
    0 1 0 1 256 256).2.1 0 0 (by decide) (by decide) (by decide) (by decide)
    (by decide)

/-- Start code points of the runs of Unicode decimal digits (category Nd,
from CPython's `unicodedata`, Unicode 14.0.0): each run holds the ten
digit characters of one script consecutively, the digit of value d at
code point start + d.  Python's `\d` in a `str` pattern matches exactly
these characters, and `int()` decodes each to its value within its run. -/
def ND_RANGE_STARTS : List ℕ :=
  [ 48, 1632, 1776, 1984, 2406, 2534, 2662, 2790, 2918, 3046, 3174, 3302,
    3430, 3558, 3664, 3792, 3872, 4160, 4240, 6112, 6160, 6470, 6608, 6784,
    6800, 6992, 7088, 7232, 7248, 42528, 43216, 43264, 43472, 43504, 43600,
    44016, 65296, 66720, 68912, 69734, 69872, 69942, 70096, 70384, 70736,
    70864, 71248, 71360, 71472, 71904, 72016, 72784, 73040, 73120, 92768,
    92864, 93008, 120782, 120792, 120802, 120812, 120822, 123200, 123632,
    125264, 130032]

/-- Python `\d` for `str` patterns: any Unicode decimal digit
(category Nd). -/
def isPyDigit (c : Char) : Bool :=
  ND_RANGE_STARTS.any fun start => start ≤ c.toNat && c.toNat < start + 10

/-- The decimal value of a Unicode digit, as `int()` decodes it: the
offset of its code point within its Nd run. -/
def pyDigitVal (c : Char) : ℕ :=
  match ND_RANGE_STARTS.find? (fun start =>
      start ≤ c.toNat && c.toNat < start + 10) with
  | some start => c.toNat - start
  | none => 0

/-- Maximal leading run of decimal digits (Python `\d`, any script) and
the remainder.  This is what a greedy `\d+` group matches when the
pattern continues with a non-digit literal: backtracking cannot shorten
the group, because the shortened group would be followed by a digit where
the pattern requires `_`. -/
def takeDigits : List Char → List Char × List Char
  | [] => ([], [])
  | c :: rest =>
      if isPyDigit c then
        let p := takeDigits rest
        (c :: p.1, p.2)
      else ([], c :: rest)

/-- Consume an exact literal prefix, returning the remainder. -/
def stripLit : List Char → List Char → Option (List Char)
  | [], s => some s
  | _ :: _, [] => none
  | l :: ls, c :: cs => if c = l then stripLit ls cs else none

/-- Python `int()` applied to a (non-empty) string of decimal digits of
any script: each character contributes its Unicode decimal value. -/
def digitsToNat (ds : List Char) : ℕ :=
  ds.foldl (fun acc c => 10 * acc + pyDigitVal c) 0

/-- The Python regex end anchor: `$` matches at the end of the string or
just before one newline at the end of the string. -/
def matchEnd (s : List Char) : Bool :=
  decide (s = [] ∨ s = ['\n'])

/-- Embedding of `parse_tile_filename(filename)` (`stitch_tiles.py`,
lines 11-20): `re.match(r'(\d+)_(\d+)_map\.jpeg$', filename)` followed by
`int()` on the two groups.  Each `\d+` group is forced to be the maximal
digit run, because the pattern requires the non-digit `_` immediately
after it; `\d` is any Unicode decimal digit and the trailing anchor keeps
Python's `$` semantics. -/
def parse_tile_filename (s : List Char) : Option (ℕ × ℕ) :=
  let p1 := takeDigits s
  if p1.1 = [] then none
  else
    match stripLit ['_'] p1.2 with
    | none => none
    | some r2 =>
      let p2 := takeDigits r2
      if p2.1 = [] then none
      else
        match stripLit ('_' :: "map.jpeg".data) p2.2 with
        | none => none
        | some r4 =>
            if matchEnd r4 then some (digitsToNat p1.1, digitsToNat p2.1)
            else none

/-- Embedding of `find_all_tiles(input_dir)` (`stitch_tiles.py`, lines
22-50), restricted to its tile-collection behavior: for each directory
entry whose name ends in `_map.jpeg`, parse it; entries that parse are
collected with their name, all others are skipped silently. -/
def find_all_tiles (files : List (List Char)) :
    List ((ℕ × ℕ) × List Char) :=
  files.filterMap fun f =>
    if "_map.jpeg".data.isSuffixOf f then
      (parse_tile_filename f).map fun cr => (cr, f)
    else none

/-- The filename language the C10 claim ascribes to `parse_tile_filename`:
the whole name is a non-empty decimal-digit run (Python `\d`: Unicode
category Nd), `_`, a non-empty digit run, and the exact suffix
`_map.jpeg`. -/
def wellFormedTileName (s : List Char) : Prop :=
  ∃ d1 d2 : List Char, d1 ≠ [] ∧ d2 ≠ [] ∧
    (∀ c ∈ d1, isPyDigit c = true) ∧ (∀ c ∈ d2, isPyDigit c = true) ∧
    s = d1 ++ '_' :: (d2 ++ '_' :: "map.jpeg".data)

/-- The decimal formatting code `f"{col}_{row}_map.jpeg"` used when the
pipeline saves a styled tile (`style_transfer_swissimage.py`, line 302),
for the nonnegative indices the WMTS service serves. -/
def natToDigits (n : ℕ) : List Char :=
  if n < 10 then [Nat.digitChar n]
  else natToDigits (n / 10) ++ [Nat.digitChar (n % 10)]
termination_by n
decreasing_by exact Nat.div_lt_self (by omega) (by omega)

/-- The styled-tile filename `f"{tile_col}_{tile_row}_map.jpeg"`. -/
def tile_filename (col row : ℕ) : List Char :=
  natToDigits col ++ '_' :: (natToDigits row ++ '_' :: "map.jpeg".data)

/-- `Nat.digitChar` of a decimal digit is a digit character and decodes
back to its value. -/
theorem digitChar_spec :
    ∀ d : ℕ, d < 10 →
      isPyDigit (Nat.digitChar d) = true ∧ pyDigitVal (Nat.digitChar d) = d := by
  decide

/-- Decimal formatting never yields the empty string. -/
theorem natToDigits_ne_nil (n : ℕ) : natToDigits n ≠ [] := by
  rw [natToDigits]
  split <;> simp

/-- Decimal formatting yields only digit characters. -/
theorem natToDigits_digits (n : ℕ) :
    ∀ c ∈ natToDigits n, isPyDigit c = true := by
  induction n using Nat.strong_induction_on with
  | _ n ih =>
    rw [natToDigits]
    split
    next h =>
      intro c hc
      rw [List.mem_singleton] at hc
      subst hc
      exact (digitChar_spec n h).1
    next h =>
      intro c hc
      rcases List.mem_append.mp hc with h1 | h1
      · exact ih (n / 10) (Nat.div_lt_self (by omega) (by omega)) c h1
      · rw [List.mem_singleton] at h1
        subst h1
        exact (digitChar_spec (n % 10) (by omega)).1

/-- `digitsToNat` over a snoc. -/
theorem digitsToNat_append (ds : List Char) (c : Char) :
    digitsToNat (ds ++ [c]) = 10 * digitsToNat ds + pyDigitVal c := by
  rw [digitsToNat, digitsToNat, List.foldl_append]
  rfl

/-- Parsing inverts decimal formatting. -/
theorem digitsToNat_natToDigits (n : ℕ) : digitsToNat (natToDigits n) = n := by
  induction n using Nat.strong_induction_on with
  | _ n ih =>
    rw [natToDigits]
    split
    next h =>
      have hd := (digitChar_spec n h).2
      simp [digitsToNat]
      omega
    next h =>
      rw [digitsToNat_append, ih (n / 10) (Nat.div_lt_self (by omega) (by omega))]
      have hd := (digitChar_spec (n % 10) (by omega)).2
      omega

/-- `takeDigits` splits its input: the first component is a digit run, the
second is the rest, which starts with a non-digit when non-empty. -/
theorem takeDigits_spec (s : List Char) :
    s = (takeDigits s).1 ++ (takeDigits s).2 ∧
    (∀ c ∈ (takeDigits s).1, isPyDigit c = true) ∧
    (∀ c r, (takeDigits s).2 = c :: r → isPyDigit c = false) := by
  induction s with
  | nil =>
    refine ⟨rfl, by simp [takeDigits], ?_⟩
    intro c r h
    simp [takeDigits] at h
  | cons a t ih =>
    by_cases h : isPyDigit a = true
    · have e : takeDigits (a :: t) = (a :: (takeDigits t).1, (takeDigits t).2) := by
        simp [takeDigits, h]
      rw [e]
      obtain ⟨ih1, ih2, ih3⟩ := ih
      refine ⟨?_, ?_, ih3⟩
      · rw [List.cons_append, ← ih1]
      · intro c hc
        rcases List.mem_cons.mp hc with rfl | hc
        · exact h
        · exact ih2 c hc
    · have e : takeDigits (a :: t) = ([], a :: t) := by
        simp [takeDigits, h]
      rw [e]
      refine ⟨rfl, by simp, ?_⟩
      intro c r hcr
      obtain ⟨rfl, -⟩ := List.cons.injEq a t c r ▸ hcr
      simpa using h

/-- On input `digits ++ nondigit :: rest`, `takeDigits` returns exactly that
split. -/
theorem takeDigits_append (ds : List Char) (c : Char) (r : List Char)
    (hds : ∀ d ∈ ds, isPyDigit d = true) (hc : isPyDigit c = false) :
    takeDigits (ds ++ c :: r) = (ds, c :: r) := by
  induction ds with
  | nil => simp [takeDigits, hc]
  | cons d t ih =>
    have hd : isPyDigit d = true := hds d (List.mem_cons_self d t)
    rw [List.cons_append]
    simp [takeDigits, hd, ih fun x hx => hds x (List.mem_cons_of_mem d hx)]

/-- `stripLit` succeeds exactly on strings extending the literal. -/
theorem stripLit_eq_some {l s r : List Char} :
    stripLit l s = some r ↔ s = l ++ r := by
  induction l generalizing s with
  | nil => simp [stripLit]
  | cons c t ih =>
    cases s with
    | nil => simp [stripLit]
    | cons a as =>
      by_cases h : a = c
      · subst h
        simp [stripLit, ih]
      · simp [stripLit, h]

/-- `parse_tile_filename` accepts a well-formed name with an admissible
tail (nothing, or the single trailing newline tolerated by `$`) and
returns the two decoded digit groups. -/
theorem parse_wf (d1 d2 tail : List Char)
    (h1 : d1 ≠ []) (h2 : d2 ≠ [])
    (hd1 : ∀ c ∈ d1, isPyDigit c = true) (hd2 : ∀ c ∈ d2, isPyDigit c = true)
    (htail : tail = [] ∨ tail = ['\n']) :
    parse_tile_filename
        (d1 ++ '_' :: (d2 ++ '_' :: ("map.jpeg".data ++ tail))) =
      some (digitsToNat d1, digitsToNat d2) := by
  have e1 : takeDigits (d1 ++ '_' :: (d2 ++ '_' :: ("map.jpeg".data ++ tail))) =
      (d1, '_' :: (d2 ++ '_' :: ("map.jpeg".data ++ tail))) :=
    takeDigits_append d1 '_' _ hd1 (by decide)
  have e2 : stripLit ['_'] ('_' :: (d2 ++ '_' :: ("map.jpeg".data ++ tail))) =
      some (d2 ++ '_' :: ("map.jpeg".data ++ tail)) :=
    stripLit_eq_some.mpr rfl
  have e3 : takeDigits (d2 ++ '_' :: ("map.jpeg".data ++ tail)) =
      (d2, '_' :: ("map.jpeg".data ++ tail)) :=
    takeDigits_append d2 '_' _ hd2 (by decide)
  have e4 : stripLit ('_' :: "map.jpeg".data)
      ('_' :: ("map.jpeg".data ++ tail)) = some tail :=
    stripLit_eq_some.mpr (by simp)
  have e5 : matchEnd tail = true := by
    rcases htail with rfl | rfl <;> decide
  simp only [parse_tile_filename, e1, e2, e3, e4, e5, h1, h2]
  simp [h1, h2]

/-- A parse success means the input is a well-formed tile name, possibly
followed by one newline. -/
theorem parse_some_wf (s : List Char)
    (h : (parse_tile_filename s).isSome = true) :
    wellFormedTileName s ∨ ∃ t, wellFormedTileName t ∧ s = t ++ ['\n'] := by
  simp only [parse_tile_filename] at h
  by_cases e1 : (takeDigits s).1 = []
  · rw [if_pos e1] at h
    simp at h
  · rw [if_neg e1] at h
    rcases e2 : stripLit ['_'] (takeDigits s).2 with _ | r2
    · rw [e2] at h
      simp at h
    · rw [e2] at h
      dsimp only at h
      by_cases e3 : (takeDigits r2).1 = []
      · rw [if_pos e3] at h
        simp at h
      · rw [if_neg e3] at h
        rcases e4 : stripLit ('_' :: "map.jpeg".data) (takeDigits r2).2
            with _ | r4
        · rw [e4] at h
          simp at h
        · rw [e4] at h
          dsimp only at h
          have e5 : matchEnd r4 = true := by
            by_contra hcon
            rw [if_neg hcon] at h
            simp at h
          have e5' : r4 = [] ∨ r4 = ['\n'] := by
            rw [matchEnd] at e5
            exact of_decide_eq_true e5
          obtain ⟨hs1, hsd1, -⟩ := takeDigits_spec s
          obtain ⟨hr1, hrd1, -⟩ := takeDigits_spec r2
          have hsplit2 : (takeDigits s).2 = '_' :: r2 := by
            simpa using stripLit_eq_some.mp e2
          have hsplit4 : (takeDigits r2).2 =
              '_' :: ("map.jpeg".data ++ r4) := by
            simpa using stripLit_eq_some.mp e4
          rw [hsplit2] at hs1
          rw [hsplit4] at hr1
          rw [hr1] at hs1
          rcases e5' with rfl | rfl
          · left
            refine ⟨(takeDigits s).1, (takeDigits r2).1, e1, e3, hsd1, hrd1, ?_⟩
            simpa using hs1
          · right
            refine ⟨(takeDigits s).1 ++
                '_' :: ((takeDigits r2).1 ++ '_' :: "map.jpeg".data),
              ⟨(takeDigits s).1, (takeDigits r2).1, e1, e3, hsd1, hrd1, rfl⟩, ?_⟩
            exact hs1.trans (by simp)

/-- A well-formed tile name contains no newline character. -/
theorem no_newline_in_wf {s : List Char} (h : wellFormedTileName s) :
    '\n' ∉ s := by
  intro hmem
  obtain ⟨d1, d2, h1, h2, hd1, hd2, rfl⟩ := h
  rcases List.mem_append.mp hmem with hm | hm
  · exact absurd (hd1 _ hm) (by decide)
  · rcases List.mem_cons.mp hm with hm | hm
    · exact absurd hm (by decide)
    · rcases List.mem_append.mp hm with hm | hm
      · exact absurd (hd2 _ hm) (by decide)
      · rcases List.mem_cons.mp hm with hm | hm
        · exact absurd hm (by decide)
        · exact absurd hm (by decide)

/-- Claim C10 counterexample: the name `12_7_map.jpeg` followed by a
newline parses successfully — Python `$` also matches just before a
trailing newline — even though the name does not consist solely of
digits, `_`, digits and the suffix `_map.jpeg`. -/
theorem C10_counterexample :
    (parse_tile_filename ("12_7_map.jpeg\n".data)).isSome = true ∧
    ¬ wellFormedTileName ("12_7_map.jpeg\n".data) := by
  constructor
  · decide
  · intro hwf
    exact no_newline_in_wf hwf (by decide)

/-- Claim C10 (amended): `parse_tile_filename` returns a tile index iff the
filename is a non-empty run of decimal digits (Python `\d`: Unicode
category Nd, any script — e.g. the Arabic-Indic name `٣_4_map.jpeg`
parses to (3, 4)), `_`, a second non-empty digit run and the exact suffix
`_map.jpeg`, optionally followed by one trailing newline (Python `$`
semantics); only nonnegative indices are representable, a name such as
`-1_0_map.jpeg` is no-match, and `find_all_tiles` never collects an entry
from a file whose name fails to parse. -/
theorem C10_amended_parse_language :
    (∀ s : List Char, (parse_tile_filename s).isSome = true ↔
      wellFormedTileName s ∨ ∃ t, wellFormedTileName t ∧ s = t ++ ['\n']) ∧
    parse_tile_filename ("٣_4_map.jpeg".data) = some (3, 4) ∧
    parse_tile_filename ("-1_0_map.jpeg".data) = none ∧
    (∀ files : List (List Char), ∀ f : List Char,
      parse_tile_filename f = none →
      ∀ e ∈ find_all_tiles files, e.2 ≠ f) := by
  refine ⟨?_, by decide, by decide, ?_⟩
  · intro s
    constructor
    · exact parse_some_wf s
    · rintro (⟨d1, d2, h1, h2, hd1, hd2, rfl⟩ |
        ⟨t, ⟨d1, d2, h1, h2, hd1, hd2, rfl⟩, rfl⟩)
      · have h := parse_wf d1 d2 [] h1 h2 hd1 hd2 (Or.inl rfl)
        rw [List.append_nil] at h
        rw [h]
        rfl
      · have h := parse_wf d1 d2 ['\n'] h1 h2 hd1 hd2 (Or.inr rfl)
        have hshape : (d1 ++ '_' :: (d2 ++ '_' :: "map.jpeg".data)) ++ ['\n'] =
            d1 ++ '_' :: (d2 ++ '_' :: ("map.jpeg".data ++ ['\n'])) := by
          simp
        rw [hshape, h]
        rfl
  · intro files f hnone e he hef
    obtain ⟨a, ha, hae⟩ := List.mem_filterMap.mp he
    by_cases hend : ("_map.jpeg".data.isSuffixOf a) = true
    · rw [if_pos hend] at hae
      rcases hp : parse_tile_filename a with _ | cr
      · rw [hp] at hae
        simp at hae
      · rw [hp] at hae
        simp only [Option.map_some'] at hae
        have hca : (cr, a) = e := Option.some.inj hae
        have ha2 : e.2 = a := by
          rw [← hca]
        rw [ha2] at hef
        rw [hef] at hp
        rw [hnone] at hp
        exact Option.noConfusion hp
    · rw [if_neg hend] at hae
      exact Option.noConfusion hae

/-- Witness for the amended C10: the well-formed name `3_4_map.jpeg`
parses. -/
theorem C10_amended_witness :
    (parse_tile_filename ("3_4_map.jpeg".data)).isSome = true :=
  (C10_amended_parse_language.1 _).mpr
    (Or.inl ⟨['3'], ['4'], by decide, by decide, by decide, by decide,
      by decide⟩)

/-- Claim C7: the tile filename convention round-trips — formatting any
(col, row) written by the pipeline as `{col}_{row}_map.jpeg` and parsing it
back yields the same pair; `parse("12_7_map.jpeg") = (12, 7)` and
`parse("map_12_7.jpeg")` is no match. -/
theorem C7_filename_roundtrip :
    (∀ col row : ℕ,
      parse_tile_filename (tile_filename col row) = some (col, row)) ∧
    parse_tile_filename ("12_7_map.jpeg".data) = some (12, 7) ∧
    parse_tile_filename ("map_12_7.jpeg".data) = none := by
  refine ⟨?_, by decide, by decide⟩
  intro col row
  have h := parse_wf (natToDigits col) (natToDigits row) []
    (natToDigits_ne_nil col) (natToDigits_ne_nil row)
    (natToDigits_digits col) (natToDigits_digits row) (Or.inl rfl)
  rw [List.append_nil] at h
  rw [tile_filename, h, digitsToNat_natToDigits, digitsToNat_natToDigits]
